import Mathlib

/-
Verification of the transaction ingestion, merge and budget logic of the
budget-app repository (src/budget_app.py). The stores are embedded as lists:
the transactions table is a list of records in row order, the budget mapping
is an association list in insertion order, and the category list is a list of
strings. Monetary amounts are modelled in cents as integers, so the source
value -42.50 is the integer -4250. Dates are carried as strings.
-/

namespace BudgetApp

/-- One row of the transactions table, with the column layout written by
init_files: date, description, amount, category, source, transaction_id. -/
structure TxnRecord where
  date : String
  description : String
  amount : Int
  category : String
  source : String
  transaction_id : String
deriving DecidableEq, Repr

/-- The transaction_id column of a store, in row order. -/
def ids (store : List TxnRecord) : List String :=
  store.map (fun r => r.transaction_id)

/-- The dedup key used by the CSV import page: the triple
(date, description, amount) passed to drop_duplicates. -/
def tripleKey (r : TxnRecord) : String × String × Int :=
  (r.date, r.description, r.amount)

/-- The dedup key used by the Sync All Accounts handler: transaction_id. -/
def idKey (r : TxnRecord) : String :=
  r.transaction_id

/-- pandas DataFrame.drop_duplicates with the given subset key and the
default keep equal to first: scan top to bottom, keep a row exactly when its
key was not seen on an earlier kept row. The seen argument accumulates the
keys of rows already kept. -/
def dropDupBy {κ : Type} [DecidableEq κ] (key : TxnRecord → κ) :
    List TxnRecord → List κ → List TxnRecord
  | [], _ => []
  | r :: rs, seen =>
    if key r ∈ seen then dropDupBy key rs seen
    else r :: dropDupBy key rs (key r :: seen)

/-- DEFAULT_CATEGORIES from budget_app.py. -/
def DEFAULT_CATEGORIES : List String :=
  ["Groceries", "Dining Out", "Gas/Transportation", "Utilities",
   "Entertainment", "Healthcare", "Shopping", "Housing", "Other"]

/-- The budget mapping: category name to monthly limit, as an association
list in insertion order (a Python dict preserves insertion order). -/
abbrev Budgets := List (String × Int)

/-- Python dict.get(k, d): the value bound to k, or d when k is absent. -/
def dictGetD (b : Budgets) (k : String) (d : Int) : Int :=
  match b with
  | [] => d
  | (k2, v) :: rest => if k2 = k then v else dictGetD rest k d

/-- Python dict assignment b[k] = v: overwrite in place when the key is
present, otherwise append the new binding at the end. -/
def dictSet (b : Budgets) (k : String) (v : Int) : Budgets :=
  if k ∈ b.map Prod.fst then b.map (fun p => if p.1 = k then (k, v) else p)
  else b ++ [(k, v)]

/-- The budget value shown by the Dashboard category breakdown:
budgets.get(category, 0) at line 319 of budget_app.py. -/
def dashboardBudget (budgets : Budgets) (category : String) : Int :=
  dictGetD budgets category 0

/-- The prefilled budget value of the Manage Budget form:
budgets.get(category, 500) at line 800 of budget_app.py. -/
def manageBudgetValue (budgets : Budgets) (category : String) : Int :=
  dictGetD budgets category 500

/-- The fallback budget mapping returned by load_budgets when the budgets
file cannot be read: 500 for every default category. -/
def loadBudgetsFallback : Budgets :=
  DEFAULT_CATEGORIES.map (fun cat => (cat, 500))

/-- The Add Expense page handler. The submitted form is accepted exactly
when the description is truthy (non-empty) and the amount is positive; on
acceptance one record with source Manual Entry and the freshly generated
timestamp id is concatenated to the table, which is then saved. On rejection
an error is shown and nothing is saved, which the model reports as none. -/
def addExpense (store : List TxnRecord) (date desc : String) (amount : Int)
    (category tid : String) : Option (List TxnRecord) :=
  if desc ≠ "" ∧ 0 < amount then
    some (store ++ [{ date := date, description := desc, amount := amount,
                      category := category, source := "Manual Entry",
                      transaction_id := tid }])
  else
    none

/-- One row of an uploaded CSV file after column mapping: the values of the
selected date, description and amount columns. -/
structure CsvRow where
  date : String
  description : String
  amount : Int
deriving DecidableEq, Repr

/-- The record built for the i-th CSV row by the Import CSV handler: the
amount is the absolute value, the category is the batch default, the source
tag is CSV Import, and the id is csv-{timestamp}-{i} with the timestamp
shared by the whole batch. -/
def csvRecord (defaultCategory ts : String) (i : Nat) (row : CsvRow) :
    TxnRecord :=
  { date := row.date, description := row.description,
    amount := |row.amount|, category := defaultCategory,
    source := "CSV Import",
    transaction_id := "csv-" ++ ts ++ "-" ++ toString i }

/-- The synthesized id of the i-th row of a CSV batch with timestamp ts. -/
def csvId (ts : String) (i : Nat) : String :=
  "csv-" ++ ts ++ "-" ++ toString i

/-- The Import CSV page handler: build one new record per row, concatenate
the new rows below the existing table, then drop_duplicates on the triple
(date, description, amount), keeping the first occurrence. -/
def csvImport (store : List TxnRecord) (rows : List CsvRow)
    (defaultCategory ts : String) : List TxnRecord :=
  dropDupBy tripleKey
    (store ++ rows.enum.map (fun p => csvRecord defaultCategory ts p.1 p.2)) []

/-- A transaction as reported by the Plaid aggregator: date, name, signed
amount, optional category taxonomy list, and the aggregator-assigned id. -/
structure PlaidTxn where
  date : String
  name : String
  amount : Int
  category : Option (List String)
  transaction_id : String
deriving DecidableEq, Repr

/-- The fixed category_mapping table of categorize_transaction. -/
def categoryMapping : List (String × String) :=
  [("Food and Drink", "Dining Out"),
   ("Groceries", "Groceries"),
   ("Transportation", "Gas/Transportation"),
   ("Recreation", "Entertainment"),
   ("Healthcare", "Healthcare"),
   ("Shopping", "Shopping"),
   ("Travel", "Entertainment"),
   ("Payment", "Other"),
   ("Transfer", "Other")]

/-- Lookup in the mapping table with a default, as Python dict.get. -/
def mapGetD (m : List (String × String)) (k d : String) : String :=
  match m with
  | [] => d
  | (k2, v) :: rest => if k2 = k then v else mapGetD rest k d

/-- categorize_transaction: when the taxonomy list is present and non-empty
the first entry is looked up in category_mapping with default Other;
an absent or empty taxonomy yields Other. -/
def categorizeTransaction (plaidCategory : Option (List String)) : String :=
  match plaidCategory with
  | some (primary :: _) => mapGetD categoryMapping primary "Other"
  | some [] => "Other"
  | none => "Other"

/-- The record that sync_plaid_transactions builds for a kept aggregator
transaction of the institution named inst. -/
def plaidRecord (inst : String) (t : PlaidTxn) : TxnRecord :=
  { date := t.date, description := t.name, amount := |t.amount|,
    category := categorizeTransaction t.category,
    source := "Plaid - " ++ inst, transaction_id := t.transaction_id }

/-- The inner loop of sync_plaid_transactions over the transactions fetched
for one access token: skip any transaction whose id is already in the
existing id set, then keep only positive (debit) amounts. -/
def syncAccount (existingIds : List String) (inst : String) :
    List PlaidTxn → List TxnRecord
  | [] => []
  | t :: ts =>
    if t.transaction_id ∈ existingIds then syncAccount existingIds inst ts
    else if 0 < t.amount then
      plaidRecord inst t :: syncAccount existingIds inst ts
    else syncAccount existingIds inst ts

/-- sync_plaid_transactions: the concatenation of the candidate records of
every connected account. Each account is the institution name paired with
the transactions fetched for its token; the existing id set is read once
from the stored table before the loop. -/
def syncPlaidTransactions (existingIds : List String)
    (accounts : List (String × List PlaidTxn)) : List TxnRecord :=
  match accounts with
  | [] => []
  | (inst, txns) :: rest =>
    syncAccount existingIds inst txns ++ syncPlaidTransactions existingIds rest

/-- The Sync All Accounts button handler: compute the candidates, and when
there are any, concatenate them below the table, drop_duplicates on
transaction_id keeping the first occurrence, and save; when there are none
nothing is written. -/
def syncAll (store : List TxnRecord)
    (accounts : List (String × List PlaidTxn)) : List TxnRecord :=
  if syncPlaidTransactions (ids store) accounts = [] then store
  else dropDupBy idKey (store ++ syncPlaidTransactions (ids store) accounts) []

/-- The Manage Categories handler: the new name is accepted exactly when it
is truthy (non-empty) and not already in the category list; on acceptance it
is appended to the list and budgets[name] = 500 is seeded, both saved. On
rejection an error is shown and nothing changes, reported as none. -/
def addCategory (categories : List String) (budgets : Budgets)
    (name : String) : Option (List String × Budgets) :=
  if name ≠ "" ∧ name ∉ categories then
    some (categories ++ [name], dictSet budgets name 500)
  else
    none

/-- One user action against the transaction store, with the inputs the
handler reads from the environment (form fields, uploaded file, fetched
aggregator pages, generated timestamp ids) made explicit. -/
inductive Step where
  | manual (date desc : String) (amount : Int) (category tid : String)
  | csv (rows : List CsvRow) (defaultCategory ts : String)
  | sync (accounts : List (String × List PlaidTxn))
deriving Repr

/-- The effect of one step on the stored table: a rejected manual entry
leaves the table as it was. -/
def applyStep (store : List TxnRecord) : Step → List TxnRecord
  | .manual date desc amount category tid =>
    (addExpense store date desc amount category tid).getD store
  | .csv rows defaultCategory ts => csvImport store rows defaultCategory ts
  | .sync accounts => syncAll store accounts

/-- A sequence of steps applied left to right. -/
def runSteps (store : List TxnRecord) : List Step → List TxnRecord
  | [] => store
  | s :: rest => runSteps (applyStep store s) rest

/-- Freshness of the ids an individual step generates: the timestamp-derived
manual id is not already stored, and the ids of a CSV batch are not already
stored and are pairwise distinct (distinct row indices give distinct ids).
Aggregator sync needs no such input hypothesis. -/
def FreshStep (store : List TxnRecord) : Step → Prop
  | .manual _ _ _ _ tid => tid ∉ ids store
  | .csv rows _ ts =>
    (∀ i, i < rows.length → csvId ts i ∉ ids store) ∧
      (∀ i j, i < rows.length → j < rows.length → csvId ts i = csvId ts j → i = j)
  | .sync _ => True

/-- Every step of the sequence generates fresh ids for the store it is
applied to. -/
def FreshSteps : List TxnRecord → List Step → Prop
  | _, [] => True
  | store, s :: rest => FreshStep store s ∧ FreshSteps (applyStep store s) rest

/-- The pagination loop of fetch_transactions. The remote collaborator is a
function from the requested offset to the returned page and the reported
total_transactions count; transactions are opaque strings here. The loop
keeps requesting with offset equal to the number retrieved so far while that
number is below the total reported by the most recent response. The source
loop has no other exit, so the model carries fuel and reports none when the
fuel runs out with the loop still running. -/
def fetchLoop (client : Nat → List String × Nat) :
    Nat → List String → Nat → Option (List String)
  | 0, acc, total => if acc.length < total then none else some acc
  | fuel + 1, acc, total =>
    if acc.length < total then
      fetchLoop client fuel (acc ++ (client acc.length).1) (client acc.length).2
    else some acc

/-- fetch_transactions: issue the initial request (offset 0), then run the
pagination loop on the returned page and reported total. -/
def fetchTransactions (client : Nat → List String × Nat) (fuel : Nat) :
    Option (List String) :=
  fetchLoop client fuel (client 0).1 (client 0).2

section DropDupLemmas

variable {κ : Type} [DecidableEq κ]

/-- drop_duplicates returns a subsequence of its input. -/
theorem dropDupBy_sublist (key : TxnRecord → κ) :
    ∀ (l : List TxnRecord) (seen : List κ), List.Sublist (dropDupBy key l seen) l := by
  intro l
  induction l with
  | nil => intro seen; simp [dropDupBy]
  | cons r rs ih =>
    intro seen
    by_cases h : key r ∈ seen
    · rw [dropDupBy, if_pos h]
      exact (ih seen).cons r
    · rw [dropDupBy, if_neg h]
      exact (ih (key r :: seen)).cons₂ r

/-- A row kept by drop_duplicates has a key outside the already-seen set. -/
theorem key_not_mem_seen_of_mem_dropDupBy (key : TxnRecord → κ) :
    ∀ (l : List TxnRecord) (seen : List κ) (r : TxnRecord),
      r ∈ dropDupBy key l seen → key r ∉ seen := by
  intro l
  induction l with
  | nil => intro seen r hr; simp [dropDupBy] at hr
  | cons a rs ih =>
    intro seen r hr
    by_cases h : key a ∈ seen
    · rw [dropDupBy, if_pos h] at hr
      exact ih seen r hr
    · rw [dropDupBy, if_neg h] at hr
      rcases List.mem_cons.mp hr with heq | hr2
      · rw [heq]; exact h
      · have hnot := ih (key a :: seen) r hr2
        intro hk
        exact hnot (List.mem_cons_of_mem _ hk)

/-- The keys of the rows kept by drop_duplicates are pairwise distinct. -/
theorem dropDupBy_key_nodup (key : TxnRecord → κ) :
    ∀ (l : List TxnRecord) (seen : List κ),
      ((dropDupBy key l seen).map key).Nodup := by
  intro l
  induction l with
  | nil => intro seen; simp [dropDupBy]
  | cons a rs ih =>
    intro seen
    by_cases h : key a ∈ seen
    · rw [dropDupBy, if_pos h]; exact ih seen
    · rw [dropDupBy, if_neg h]
      simp only [List.map_cons, List.nodup_cons]
      refine ⟨?_, ih _⟩
      intro hmem
      rcases List.mem_map.mp hmem with ⟨r, hr, hkr⟩
      have hnot := key_not_mem_seen_of_mem_dropDupBy key rs (key a :: seen) r hr
      exact hnot (by rw [hkr]; exact List.mem_cons_self _ _)

/-- A key appears among the kept rows exactly when it is outside the seen
set and appears in the input. -/
theorem mem_map_key_dropDupBy (key : TxnRecord → κ) :
    ∀ (l : List TxnRecord) (seen : List κ) (k : κ),
      k ∈ (dropDupBy key l seen).map key ↔ k ∉ seen ∧ k ∈ l.map key := by
  intro l
  induction l with
  | nil => intro seen k; simp [dropDupBy]
  | cons a rs ih =>
    intro seen k
    by_cases h : key a ∈ seen
    · rw [dropDupBy, if_pos h]
      rw [ih seen k]
      simp only [List.map_cons, List.mem_cons]
      constructor
      · rintro ⟨hk, hmem⟩; exact ⟨hk, Or.inr hmem⟩
      · rintro ⟨hk, hka | hmem⟩
        · exact absurd (hka ▸ h) hk
        · exact ⟨hk, hmem⟩
    · rw [dropDupBy, if_neg h]
      simp only [List.map_cons, List.mem_cons]
      rw [ih (key a :: seen) k]
      constructor
      · rintro (hka | ⟨hk, hmem⟩)
        · exact ⟨hka ▸ h, Or.inl hka⟩
        · exact ⟨fun hs => hk (List.mem_cons_of_mem _ hs), Or.inr hmem⟩
      · rintro ⟨hk, hka | hmem⟩
        · exact Or.inl hka
        · by_cases hka : k = key a
          · exact Or.inl hka
          · exact Or.inr ⟨by simp [List.mem_cons, hka, hk], hmem⟩

/-- When the input has pairwise-distinct keys, none already seen,
drop_duplicates keeps every row. -/
theorem dropDupBy_eq_self (key : TxnRecord → κ) :
    ∀ (l : List TxnRecord) (seen : List κ), (l.map key).Nodup →
      (∀ k ∈ l.map key, k ∉ seen) → dropDupBy key l seen = l := by
  intro l
  induction l with
  | nil => intro seen _ _; rfl
  | cons a rs ih =>
    intro seen hnd hdisj
    have ha : key a ∉ seen := hdisj (key a) (by simp)
    rw [dropDupBy, if_neg ha]
    simp only [List.map_cons, List.nodup_cons] at hnd
    congr 1
    refine ih (key a :: seen) hnd.2 ?_
    intro k hk hks
    rcases List.mem_cons.mp hks with heq | hks2
    · exact hnd.1 (heq ▸ hk)
    · exact hdisj k (List.mem_cons_of_mem _ hk) hks2

/-- A row whose key already occurs on an earlier row, and which is not
itself one of those earlier rows, is dropped by drop_duplicates over the
concatenation: the earlier occurrence wins. -/
theorem not_mem_dropDupBy_append (key : TxnRecord → κ) :
    ∀ (l₁ l₂ : List TxnRecord) (seen : List κ) (n : TxnRecord),
      (∃ s ∈ l₁, key s = key n) → n ∉ l₁ →
        n ∉ dropDupBy key (l₁ ++ l₂) seen := by
  intro l₁
  induction l₁ with
  | nil =>
    intro l₂ seen n hex _
    rcases hex with ⟨s, hs, _⟩
    simp at hs
  | cons a l₁ ih =>
    intro l₂ seen n hex hn hmem
    rw [List.cons_append] at hmem
    by_cases h : key a ∈ seen
    · rw [dropDupBy, if_pos h] at hmem
      rcases hex with ⟨s, hs, hks⟩
      rcases List.mem_cons.mp hs with heq | hs2
      · have hnot := key_not_mem_seen_of_mem_dropDupBy key (l₁ ++ l₂) seen n hmem
        rw [heq] at hks
        exact hnot (hks ▸ h)
      · exact ih l₂ seen n ⟨s, hs2, hks⟩
          (fun hc => hn (List.mem_cons_of_mem _ hc)) hmem
    · rw [dropDupBy, if_neg h] at hmem
      rcases List.mem_cons.mp hmem with heq | hmem2
      · exact hn (heq ▸ List.mem_cons_self _ _)
      · rcases hex with ⟨s, hs, hks⟩
        rcases List.mem_cons.mp hs with heq | hs2
        · have hnot := key_not_mem_seen_of_mem_dropDupBy key (l₁ ++ l₂)
            (key a :: seen) n hmem2
          rw [heq] at hks
          exact hnot (by rw [← hks]; exact List.mem_cons_self _ _)
        · exact ih l₂ (key a :: seen) n ⟨s, hs2, hks⟩
            (fun hc => hn (List.mem_cons_of_mem _ hc)) hmem2

end DropDupLemmas

/-- Every candidate produced for one account comes from a fetched
transaction with positive amount whose id is not already stored. -/
theorem mem_syncAccount (existingIds : List String) (inst : String) :
    ∀ (txns : List PlaidTxn) (r : TxnRecord),
      r ∈ syncAccount existingIds inst txns →
        ∃ t ∈ txns, 0 < t.amount ∧ t.transaction_id ∉ existingIds ∧
          r = plaidRecord inst t := by
  intro txns
  induction txns with
  | nil => intro r hr; simp [syncAccount] at hr
  | cons t ts ih =>
    intro r hr
    rw [syncAccount] at hr
    by_cases h1 : t.transaction_id ∈ existingIds
    · rw [if_pos h1] at hr
      rcases ih r hr with ⟨u, hu, hpos, hid, heq⟩
      exact ⟨u, List.mem_cons_of_mem _ hu, hpos, hid, heq⟩
    · rw [if_neg h1] at hr
      by_cases h2 : 0 < t.amount
      · rw [if_pos h2] at hr
        rcases List.mem_cons.mp hr with heq | hr2
        · exact ⟨t, List.mem_cons_self _ _, h2, h1, heq⟩
        · rcases ih r hr2 with ⟨u, hu, hpos, hid, heq⟩
          exact ⟨u, List.mem_cons_of_mem _ hu, hpos, hid, heq⟩
      · rw [if_neg h2] at hr
        rcases ih r hr with ⟨u, hu, hpos, hid, heq⟩
        exact ⟨u, List.mem_cons_of_mem _ hu, hpos, hid, heq⟩

/-- Every candidate produced by a sync comes from some account, from a
fetched transaction with positive amount whose id is not already stored. -/
theorem mem_syncPlaidTransactions (existingIds : List String) :
    ∀ (accounts : List (String × List PlaidTxn)) (r : TxnRecord),
      r ∈ syncPlaidTransactions existingIds accounts →
        ∃ inst txns, (inst, txns) ∈ accounts ∧ ∃ t ∈ txns, 0 < t.amount ∧
          t.transaction_id ∉ existingIds ∧ r = plaidRecord inst t := by
  intro accounts
  induction accounts with
  | nil => intro r hr; simp [syncPlaidTransactions] at hr
  | cons a rest ih =>
    intro r hr
    obtain ⟨inst, txns⟩ := a
    rw [syncPlaidTransactions] at hr
    rcases List.mem_append.mp hr with hr1 | hr2
    · rcases mem_syncAccount existingIds inst txns r hr1 with ⟨t, ht, h⟩
      exact ⟨inst, txns, List.mem_cons_self _ _, t, ht, h⟩
    · rcases ih r hr2 with ⟨inst2, txns2, hmem, hrest⟩
      exact ⟨inst2, txns2, List.mem_cons_of_mem _ hmem, hrest⟩

/-- dict.get returns the default when the key is absent. -/
theorem dictGetD_eq_default :
    ∀ (b : Budgets) (k : String) (d : Int), k ∉ b.map Prod.fst →
      dictGetD b k d = d := by
  intro b
  induction b with
  | nil => intro k d _; rfl
  | cons p rest ih =>
    intro k d h
    obtain ⟨k2, v⟩ := p
    simp only [List.map_cons, List.mem_cons] at h
    push_neg at h
    rw [dictGetD, if_neg (fun he => h.1 he.symm)]
    exact ih k d h.2

/-- Same statement for the string-valued category mapping table. -/
theorem mapGetD_eq_default :
    ∀ (m : List (String × String)) (k d : String), k ∉ m.map Prod.fst →
      mapGetD m k d = d := by
  intro m
  induction m with
  | nil => intro k d _; rfl
  | cons p rest ih =>
    intro k d h
    obtain ⟨k2, v⟩ := p
    simp only [List.map_cons, List.mem_cons] at h
    push_neg at h
    rw [mapGetD, if_neg (fun he => h.1 he.symm)]
    exact ih k d h.2

/-- Overwriting every binding of a present key makes lookup return the new
value. -/
theorem dictGetD_map_overwrite (k : String) (v d : Int) :
    ∀ b : Budgets, k ∈ b.map Prod.fst →
      dictGetD (b.map (fun p => if p.1 = k then (k, v) else p)) k d = v := by
  intro b
  induction b with
  | nil => intro h; simp at h
  | cons p rest ih =>
    intro h
    obtain ⟨k2, w⟩ := p
    by_cases hk : k2 = k
    · subst hk
      simp only [List.map_cons]
      rw [if_pos trivial, dictGetD, if_pos rfl]
    · have hk2 : ((k2, w) : String × Int).1 = k ↔ False := by simp [hk]
      simp only [List.map_cons, hk2, if_false]
      rw [dictGetD, if_neg hk]
      apply ih
      simp only [List.map_cons, List.mem_cons] at h
      rcases h with heq | h2
      · exact absurd heq.symm hk
      · exact h2

/-- Appending a binding for an absent key makes lookup return its value. -/
theorem dictGetD_append_absent (k : String) (v d : Int) :
    ∀ b : Budgets, k ∉ b.map Prod.fst →
      dictGetD (b ++ [(k, v)]) k d = v := by
  intro b
  induction b with
  | nil => intro _; rw [List.nil_append, dictGetD, if_pos rfl]
  | cons p rest ih =>
    intro h
    obtain ⟨k2, w⟩ := p
    simp only [List.map_cons, List.mem_cons] at h
    push_neg at h
    rw [List.cons_append, dictGetD, if_neg (fun he => h.1 he.symm)]
    exact ih h.2

/-- Python dict assignment b[k] = v followed by b.get(k, d) yields v. -/
theorem dictGetD_dictSet_self (b : Budgets) (k : String) (v d : Int) :
    dictGetD (dictSet b k v) k d = v := by
  unfold dictSet
  by_cases h : k ∈ b.map Prod.fst
  · rw [if_pos h]; exact dictGetD_map_overwrite k v d b h
  · rw [if_neg h]; exact dictGetD_append_absent k v d b h

/-- The id column distributes over table concatenation. -/
theorem ids_append (l1 l2 : List TxnRecord) :
    ids (l1 ++ l2) = ids l1 ++ ids l2 := by
  simp [ids]

/-- The id column is the idKey image of the table. -/
theorem ids_eq_map_idKey (l : List TxnRecord) : ids l = l.map idKey := rfl

/-- C3 counterexample: the default budget read for an absent category is not
one shared constant across read sites. With an empty budget mapping, reading
the absent category Groceries yields 0 on the Dashboard category breakdown
but 500 on the Manage Budget form. -/
theorem c3_counterexample :
    dashboardBudget [] "Groceries" = 0 ∧
    manageBudgetValue [] "Groceries" = 500 ∧
    dashboardBudget [] "Groceries" ≠ manageBudgetValue [] "Groceries" := by
  exact ⟨rfl, rfl, by decide⟩

/-- C3 (amended): every category absent from the budget mapping reads as a
fixed per-site constant, but the constant differs by site: 0 in the
Dashboard category breakdown, 500 in the Manage Budget form, and the
load_budgets fallback maps every default category to 500. -/
theorem c3_absent_category_defaults (budgets : Budgets) (category : String)
    (habs : category ∉ budgets.map Prod.fst) :
    dashboardBudget budgets category = 0 ∧
    manageBudgetValue budgets category = 500 ∧
    ∀ cat ∈ DEFAULT_CATEGORIES, dictGetD loadBudgetsFallback cat 0 = 500 := by
  refine ⟨dictGetD_eq_default budgets category 0 habs,
    dictGetD_eq_default budgets category 500 habs, ?_⟩
  decide

/-- Witness for the amended C3 at the empty budget mapping and the absent
category Groceries. -/
theorem c3_absent_category_defaults_witness :
    dashboardBudget [] "Groceries" = 0 ∧
    manageBudgetValue [] "Groceries" = 500 ∧
    dictGetD loadBudgetsFallback "Housing" 0 = 500 := by
  have h := c3_absent_category_defaults [] "Groceries" (by decide)
  exact ⟨h.1, h.2.1, h.2.2 "Housing" (by decide)⟩

/-- C6: adding a category is rejected exactly when the submitted name is
empty or already present (and then nothing is saved, which the model
reports as none); otherwise the name is appended at the end of the category
list and the new category is seeded with the default budget limit 500. -/
theorem c6_addCategory (categories : List String) (budgets : Budgets)
    (name : String) :
    (addCategory categories budgets name = none ↔
      name = "" ∨ name ∈ categories) ∧
    ∀ cs b, addCategory categories budgets name = some (cs, b) →
      cs = categories ++ [name] ∧ dictGetD b name 0 = 500 := by
  constructor
  · unfold addCategory
    by_cases h1 : name = ""
    · simp [h1]
    · by_cases h2 : name ∈ categories
      · simp [h1, h2]
      · simp [h1, h2]
  · intro cs b hsome
    unfold addCategory at hsome
    split at hsome
    · injection hsome with h
      injection h with hcs hb
      subst hcs
      subst hb
      exact ⟨rfl, dictGetD_dictSet_self budgets name 500 0⟩
    · simp at hsome

/-- Witness for C6: an empty name and a duplicate name are rejected; for a
genuinely new name the list gains the name at its end and the seeded budget
limit reads back as 500. -/
theorem c6_addCategory_witness :
    addCategory DEFAULT_CATEGORIES [] "" = none ∧
    addCategory DEFAULT_CATEGORIES [] "Groceries" = none ∧
    (DEFAULT_CATEGORIES ++ ["Pets"] = DEFAULT_CATEGORIES ++ ["Pets"] ∧
      dictGetD (dictSet loadBudgetsFallback "Pets" 500) "Pets" 0 = 500) := by
  refine ⟨(c6_addCategory DEFAULT_CATEGORIES [] "").1.mpr (Or.inl rfl),
    (c6_addCategory DEFAULT_CATEGORIES [] "Groceries").1.mpr
      (Or.inr (by decide)), ?_⟩
  exact (c6_addCategory DEFAULT_CATEGORIES loadBudgetsFallback "Pets").2
    (DEFAULT_CATEGORIES ++ ["Pets"]) (dictSet loadBudgetsFallback "Pets" 500)
    (by decide)

/-- C7: an aggregator transaction whose taxonomy begins with Food and Drink
maps to Dining Out; an absent taxonomy, an empty taxonomy, or a first entry
outside the fixed mapping table map to Other. -/
theorem c7_categorize :
    (∀ rest, categorizeTransaction (some ("Food and Drink" :: rest)) =
      "Dining Out") ∧
    categorizeTransaction none = "Other" ∧
    categorizeTransaction (some []) = "Other" ∧
    ∀ primary rest, primary ∉ categoryMapping.map Prod.fst →
      categorizeTransaction (some (primary :: rest)) = "Other" := by
  refine ⟨fun rest => rfl, rfl, rfl, ?_⟩
  intro primary rest h
  exact mapGetD_eq_default categoryMapping primary "Other" h

/-- Witness for C7 at concrete taxonomies, including an unrecognized one. -/
theorem c7_categorize_witness :
    categorizeTransaction (some ["Food and Drink", "Restaurants"]) =
      "Dining Out" ∧
    categorizeTransaction (some ["Cryptocurrency"]) = "Other" := by
  exact ⟨c7_categorize.1 ["Restaurants"],
    c7_categorize.2.2.2 "Cryptocurrency" [] (by decide)⟩

/-- C8: every candidate record a sync produces comes from a fetched
transaction with strictly positive reported amount (and an id not already
stored); when every fetched transaction has non-positive amount the sync
produces no candidates at all. -/
theorem c8_positive_only (existingIds : List String)
    (accounts : List (String × List PlaidTxn)) :
    (∀ r ∈ syncPlaidTransactions existingIds accounts,
      ∃ inst txns, (inst, txns) ∈ accounts ∧ ∃ t ∈ txns, 0 < t.amount ∧
        t.transaction_id ∉ existingIds ∧ r = plaidRecord inst t) ∧
    ((∀ a ∈ accounts, ∀ t ∈ a.2, t.amount ≤ 0) →
      syncPlaidTransactions existingIds accounts = []) := by
  constructor
  · exact fun r hr => mem_syncPlaidTransactions existingIds accounts r hr
  · intro hall
    by_contra hne
    rcases List.exists_mem_of_ne_nil _ hne with ⟨r, hr⟩
    rcases mem_syncPlaidTransactions existingIds accounts r hr with
      ⟨inst, txns, hacc, t, ht, hpos, _, _⟩
    have := hall (inst, txns) hacc t ht
    omega

/-- A fetched aggregator refund with negative amount, used as a concrete
sync input. -/
def negTxn : PlaidTxn :=
  { date := "2024-03-01", name := "Refund", amount := -1200,
    category := some ["Food and Drink"], transaction_id := "p1" }

/-- Witness for C8: a sync over one account whose only fetched transaction
has a negative amount produces no candidates. -/
theorem c8_positive_only_witness :
    syncPlaidTransactions ["x"] [("Chase", [negTxn])] = [] := by
  exact (c8_positive_only ["x"] [("Chase", [negTxn])]).2 (by decide)

/-- Appending one record with an id not already in the table preserves
pairwise-distinct ids. -/
theorem nodup_ids_append_single (store : List TxnRecord) (r : TxnRecord)
    (hnd : (ids store).Nodup) (hfresh : r.transaction_id ∉ ids store) :
    (ids (store ++ [r])).Nodup := by
  rw [ids_append]
  refine List.Nodup.append hnd (by simp [ids]) ?_
  intro a ha hb
  simp [ids] at hb
  subst hb
  exact hfresh ha

/-- C5: a manual entry with non-empty description and positive amount
appends exactly one record with source Manual Entry and the generated id,
leaving all prior records in place; an empty description or non-positive
amount is rejected with the store unchanged (none); and when the generated
id is fresh the resulting table keeps pairwise-distinct ids. -/
theorem c5_manual_entry (store : List TxnRecord) (date desc : String)
    (amount : Int) (category tid : String) :
    (desc ≠ "" ∧ 0 < amount →
      addExpense store date desc amount category tid =
        some (store ++ [{ date := date, description := desc,
                          amount := amount, category := category,
                          source := "Manual Entry",
                          transaction_id := tid }])) ∧
    ((desc = "" ∨ amount ≤ 0) →
      addExpense store date desc amount category tid = none) ∧
    ((ids store).Nodup → tid ∉ ids store →
      ∀ s, addExpense store date desc amount category tid = some s →
        (ids s).Nodup) := by
  refine ⟨?_, ?_, ?_⟩
  · intro h
    unfold addExpense
    rw [if_pos h]
  · intro h
    unfold addExpense
    have hneg : ¬(desc ≠ "" ∧ 0 < amount) := by
      rintro ⟨h1, h2⟩
      rcases h with h | h
      · exact h1 h
      · omega
    rw [if_neg hneg]
  · intro hnd hfresh s hs
    unfold addExpense at hs
    split at hs
    · injection hs with h
      subst h
      exact nodup_ids_append_single store _ hnd hfresh
    · simp at hs

/-- The record a valid concrete manual entry produces. -/
def manualRec : TxnRecord :=
  { date := "2024-01-01", description := "Coffee", amount := 300,
    category := "Dining Out", source := "Manual Entry",
    transaction_id := "m1" }

/-- Witness for C5 at a valid and an invalid concrete input. -/
theorem c5_manual_entry_witness :
    addExpense [] "2024-01-01" "Coffee" 300 "Dining Out" "m1" =
      some [manualRec] ∧
    addExpense [] "2024-01-01" "" 300 "Dining Out" "m1" = none ∧
    (ids [manualRec]).Nodup := by
  have h := c5_manual_entry [] "2024-01-01" "Coffee" 300 "Dining Out" "m1"
  have h1 : addExpense [] "2024-01-01" "Coffee" 300 "Dining Out" "m1" =
      some [manualRec] := by
    rw [h.1 ⟨by decide, by decide⟩]
    rfl
  refine ⟨h1, ?_, h.2.2 (by simp [ids]) (by simp [ids]) [manualRec] h1⟩
  exact (c5_manual_entry [] "2024-01-01" "" 300 "Dining Out" "m1").2.1
    (Or.inl rfl)

/-- A stored manual entry. -/
def dupA : TxnRecord :=
  { date := "2024-01-01", description := "Coffee", amount := 300,
    category := "Dining Out", source := "Manual Entry",
    transaction_id := "a" }

/-- A second, distinct stored manual entry with the same date, description
and amount as dupA but a different transaction_id. -/
def dupB : TxnRecord :=
  { date := "2024-01-01", description := "Coffee", amount := 300,
    category := "Dining Out", source := "Manual Entry",
    transaction_id := "b" }

/-- A CSV row whose triple matches no stored record. -/
def zooRow : CsvRow :=
  { date := "2024-02-02", description := "Zoo", amount := 500 }

/-- C10: CSV import deduplicates the whole merged table, so importing a row
that matches no stored record can still delete a stored record: with two
distinct stored manual entries sharing (date, description, amount), the
later one (dupB) is removed by the import. -/
theorem c10_import_drops_stored :
    ("2024-02-02", "Zoo", (500 : Int)) ∉ [dupA, dupB].map tripleKey ∧
    dupA.transaction_id ≠ dupB.transaction_id ∧
    tripleKey dupA = tripleKey dupB ∧
    csvImport [dupA, dupB] [zooRow] "Other" "T" =
      [dupA, csvRecord "Other" "T" 0 zooRow] ∧
    dupB ∉ csvImport [dupA, dupB] [zooRow] "Other" "T" := by
  decide

/-- C4: aggregator sync never reintroduces an already-stored id. Every
candidate produced against the stored id set carries an id outside that
set, and after the Sync All Accounts handler runs, each previously stored
id occurs exactly once in the saved table. -/
theorem c4_sync_no_reintroduction (store : List TxnRecord)
    (accounts : List (String × List PlaidTxn))
    (hnd : (ids store).Nodup) :
    (∀ r ∈ syncPlaidTransactions (ids store) accounts,
      r.transaction_id ∉ ids store) ∧
    ∀ tid ∈ ids store, (ids (syncAll store accounts)).count tid = 1 := by
  constructor
  · intro r hr
    rcases mem_syncPlaidTransactions (ids store) accounts r hr with
      ⟨inst, txns, _, t, ht, _, hnotin, heq⟩
    rw [heq]
    exact hnotin
  · intro tid htid
    unfold syncAll
    by_cases hnews : syncPlaidTransactions (ids store) accounts = []
    · rw [if_pos hnews]
      exact List.count_eq_one_of_mem hnd htid
    · rw [if_neg hnews]
      rw [ids_eq_map_idKey]
      apply List.count_eq_one_of_mem (dropDupBy_key_nodup idKey _ _)
      rw [mem_map_key_dropDupBy]
      refine ⟨by simp, ?_⟩
      rw [List.map_append]
      apply List.mem_append_left
      rw [← ids_eq_map_idKey]
      exact htid

/-- A stored record whose id the aggregator reports again. -/
def recA : TxnRecord :=
  { date := "2024-01-02", description := "Base", amount := 100,
    category := "Other", source := "Manual Entry", transaction_id := "a" }

/-- A fetched aggregator transaction duplicating the stored id a. -/
def dupPlaid : PlaidTxn :=
  { date := "2024-01-03", name := "Dup", amount := 700,
    category := none, transaction_id := "a" }

/-- A fetched aggregator transaction with a genuinely new id. -/
def newPlaid : PlaidTxn :=
  { date := "2024-01-04", name := "New", amount := 800,
    category := none, transaction_id := "b" }

/-- Witness for C4: after syncing an account that reports the stored id a
again, the saved table still holds id a exactly once. -/
theorem c4_sync_no_reintroduction_witness :
    (ids (syncAll [recA] [("Chase", [dupPlaid, newPlaid])])).count "a" = 1 := by
  exact (c4_sync_no_reintroduction [recA] [("Chase", [dupPlaid, newPlaid])]
    (by simp [ids])).2 "a" (by simp [ids, recA])

/-- C2: CSV import of N rows appends at most N records; every record of the
merged table is a previously stored record or carries the mapped date and
description, the absolute value of the row amount, the batch default
category and source CSV Import; a new record whose (date, description,
amount) triple already occurs in the store is the one dropped by the merge
(the older stored record stays); and importing one row whose triple is
absent from a store with pairwise-distinct triples appends exactly that one
record. -/
theorem c2_csvImport (store : List TxnRecord) (rows : List CsvRow)
    (dc ts : String) :
    (csvImport store rows dc ts).length ≤ store.length + rows.length ∧
    (∀ r ∈ csvImport store rows dc ts, r ∈ store ∨
      ∃ row ∈ rows, r.date = row.date ∧ r.description = row.description ∧
        r.amount = |row.amount| ∧ r.category = dc ∧
        r.source = "CSV Import") ∧
    (∀ i row, rows.get? i = some row → csvRecord dc ts i row ∉ store →
      (∃ s ∈ store, tripleKey s = tripleKey (csvRecord dc ts i row)) →
      csvRecord dc ts i row ∉ csvImport store rows dc ts) ∧
    (∀ row, rows = [row] → (store.map tripleKey).Nodup →
      tripleKey (csvRecord dc ts 0 row) ∉ store.map tripleKey →
      csvImport store rows dc ts = store ++ [csvRecord dc ts 0 row]) := by
  refine ⟨?_, ?_, ?_, ?_⟩
  · have hsub := dropDupBy_sublist tripleKey
      (store ++ rows.enum.map (fun p => csvRecord dc ts p.1 p.2)) []
    have hlen := hsub.length_le
    simpa [csvImport, List.enum_length] using hlen
  · intro r hr
    have hsub := dropDupBy_sublist tripleKey
      (store ++ rows.enum.map (fun p => csvRecord dc ts p.1 p.2)) []
    have hmem : r ∈ store ++ rows.enum.map (fun p => csvRecord dc ts p.1 p.2) :=
      hsub.subset hr
    rcases List.mem_append.mp hmem with hs | hn
    · exact Or.inl hs
    · rcases List.mem_map.mp hn with ⟨p, hp, heq⟩
      have hrowmem : p.2 ∈ rows := by
        have hm := List.mem_map_of_mem Prod.snd hp
        rwa [List.enum_map_snd] at hm
      subst heq
      exact Or.inr ⟨p.2, hrowmem, rfl, rfl, rfl, rfl, rfl⟩
  · intro i row _ hnotin hex
    exact not_mem_dropDupBy_append tripleKey store
      (rows.enum.map (fun p => csvRecord dc ts p.1 p.2)) []
      (csvRecord dc ts i row) hex hnotin
  · intro row hrows hnd htriple
    subst hrows
    unfold csvImport
    rw [show ([row].enum.map (fun p => csvRecord dc ts p.1 p.2)) =
      [csvRecord dc ts 0 row] from rfl]
    apply dropDupBy_eq_self
    · rw [List.map_append]
      refine List.Nodup.append hnd (by simp) ?_
      intro a ha hb
      simp at hb
      subst hb
      exact htriple ha
    · intro k _ hk
      simp at hk

/-- The single CSV row of the spec example: date 2024-01-05, description
Store A, amount -42.50 (in cents). -/
def storeARow : CsvRow :=
  { date := "2024-01-05", description := "Store A", amount := -4250 }

/-- Witness for C2 at the spec example: importing that one row with default
category Groceries into an empty store yields exactly one record with the
absolute amount and source CSV Import. -/
theorem c2_csvImport_witness :
    csvImport [] [storeARow] "Groceries" "T" =
      [{ date := "2024-01-05", description := "Store A", amount := 4250,
         category := "Groceries", source := "CSV Import",
         transaction_id := "csv-T-0" }] ∧
    (csvImport [] [storeARow] "Groceries" "T").length ≤ 0 + 1 := by
  have h := c2_csvImport [] [storeARow] "Groceries" "T"
  have hd := h.2.2.2 storeARow rfl (by decide) (by decide)
  constructor
  · rw [hd]
    decide
  · simpa using h.1

/-- The id column of a CSV batch is the csvId image of the row indices. -/
theorem ids_csv_batch (rows : List CsvRow) (dc ts : String) :
    ids (rows.enum.map (fun p => csvRecord dc ts p.1 p.2)) =
      (List.range rows.length).map (csvId ts) := by
  unfold ids
  rw [List.map_map]
  rw [show ((fun r : TxnRecord => r.transaction_id) ∘
      (fun p : Nat × CsvRow => csvRecord dc ts p.1 p.2)) =
      (csvId ts) ∘ Prod.fst from rfl]
  rw [← List.map_map, List.enum_map_fst]

/-- A CSV import whose generated batch ids are fresh and pairwise distinct
preserves pairwise-distinct ids. -/
theorem nodup_ids_csvImport (store : List TxnRecord) (rows : List CsvRow)
    (dc ts : String) (hnd : (ids store).Nodup)
    (hfresh : ∀ i, i < rows.length → csvId ts i ∉ ids store)
    (hinj : ∀ i j, i < rows.length → j < rows.length →
      csvId ts i = csvId ts j → i = j) :
    (ids (csvImport store rows dc ts)).Nodup := by
  have hsub := dropDupBy_sublist tripleKey
    (store ++ rows.enum.map (fun p => csvRecord dc ts p.1 p.2)) []
  have hids : (ids (store ++
      rows.enum.map (fun p => csvRecord dc ts p.1 p.2))).Nodup := by
    rw [ids_append, ids_csv_batch]
    refine List.Nodup.append hnd
      (List.Nodup.map_on ?_ (List.nodup_range _)) ?_
    · intro x hx y hy hxy
      exact hinj x y (List.mem_range.mp hx) (List.mem_range.mp hy) hxy
    · intro a ha hb
      rcases List.mem_map.mp hb with ⟨i, hi, heq⟩
      subst heq
      exact hfresh i (List.mem_range.mp hi) ha
  exact hids.sublist (hsub.map _)

/-- Each single user action preserves pairwise-distinct ids when the ids it
generates are fresh. -/
theorem nodup_ids_applyStep (store : List TxnRecord) (s : Step)
    (hnd : (ids store).Nodup) (hf : FreshStep store s) :
    (ids (applyStep store s)).Nodup := by
  cases s with
  | manual date desc amount category tid =>
    simp only [applyStep]
    unfold addExpense
    by_cases h : desc ≠ "" ∧ 0 < amount
    · rw [if_pos h]
      exact nodup_ids_append_single store _ hnd hf
    · rw [if_neg h]
      exact hnd
  | csv rows dc ts =>
    exact nodup_ids_csvImport store rows dc ts hnd hf.1 hf.2
  | sync accounts =>
    simp only [applyStep]
    unfold syncAll
    by_cases h : syncPlaidTransactions (ids store) accounts = []
    · rw [if_pos h]
      exact hnd
    · rw [if_neg h]
      rw [ids_eq_map_idKey]
      exact dropDupBy_key_nodup idKey _ _

/-- C1: starting from a store with pairwise-distinct transaction ids, any
sequence of manual entries, CSV imports and aggregator syncs whose
generated ids are fresh leaves the stored ids pairwise distinct: no two
stored records ever share a transaction_id. -/
theorem c1_unique_ids (store : List TxnRecord) (steps : List Step)
    (hnd : (ids store).Nodup) (hf : FreshSteps store steps) :
    (ids (runSteps store steps)).Nodup := by
  induction steps generalizing store with
  | nil => exact hnd
  | cons s rest ih =>
    exact ih (applyStep store s) (nodup_ids_applyStep store s hnd hf.1) hf.2

/-- Witness for C1: a concrete run of one manual entry, one CSV import and
one aggregator sync starting from the empty store ends with pairwise
distinct ids. -/
theorem c1_unique_ids_witness :
    (ids (runSteps []
      [Step.manual "2024-01-01" "Coffee" 300 "Dining Out" "m1",
       Step.csv [storeARow] "Groceries" "T",
       Step.sync [("Chase", [dupPlaid, newPlaid])]])).Nodup := by
  apply c1_unique_ids
  · simp [ids]
  · refine ⟨?_, ⟨?_, ?_⟩, trivial, trivial⟩
    · show ("m1" : String) ∉ ids []
      simp [ids]
    · intro i hi
      have h0 : i = 0 := by
        simp only [List.length_cons, List.length_nil] at hi
        omega
      subst h0
      show csvId "T" 0 ∉ ids (applyStep []
        (Step.manual "2024-01-01" "Coffee" 300 "Dining Out" "m1"))
      decide
    · intro i j hi hj _
      simp only [List.length_cons, List.length_nil] at hi hj
      omega

/-- When the reported total is stable and every page requested while short
of the total is non-empty, the pagination loop with fuel beyond the
remaining count terminates and retrieves at least the total. -/
theorem fetchLoop_terminates (client : Nat → List String × Nat) (total : Nat)
    (hstable : ∀ o, (client o).2 = total)
    (hprog : ∀ o, o < total → 1 ≤ (client o).1.length) :
    ∀ (fuel : Nat) (acc : List String), total - acc.length < fuel →
      ∃ res, fetchLoop client fuel acc total = some res ∧
        total ≤ res.length := by
  intro fuel
  induction fuel with
  | zero => intro acc h; omega
  | succ fuel ih =>
    intro acc h
    rw [fetchLoop]
    by_cases hlt : acc.length < total
    · rw [if_pos hlt]
      rw [hstable acc.length]
      have hpage := hprog acc.length hlt
      apply ih
      rw [List.length_append]
      omega
    · rw [if_neg hlt]
      exact ⟨acc, rfl, by omega⟩

/-- When additionally every page at offset o holds at most total - o
transactions, the loop retrieves exactly the total. -/
theorem fetchLoop_exact (client : Nat → List String × Nat) (total : Nat)
    (hstable : ∀ o, (client o).2 = total)
    (hprog : ∀ o, o < total → 1 ≤ (client o).1.length)
    (hcap : ∀ o, (client o).1.length ≤ total - o) :
    ∀ (fuel : Nat) (acc : List String), total - acc.length < fuel →
      acc.length ≤ total →
      ∃ res, fetchLoop client fuel acc total = some res ∧
        res.length = total := by
  intro fuel
  induction fuel with
  | zero => intro acc h _; omega
  | succ fuel ih =>
    intro acc h hle
    rw [fetchLoop]
    by_cases hlt : acc.length < total
    · rw [if_pos hlt]
      rw [hstable acc.length]
      have hpage := hprog acc.length hlt
      have hbound := hcap acc.length
      apply ih
      · rw [List.length_append]
        omega
      · rw [List.length_append]
        omega
    · rw [if_neg hlt]
      exact ⟨acc, rfl, by omega⟩

/-- C9 (amended): with a stable reported total and non-empty pages while
short of it, fetch_transactions with fuel total + 1 terminates and returns
at least the reported total of transactions, each page being requested at
the offset equal to the number retrieved so far; it returns exactly the
reported total when additionally no page overshoots the remainder, i.e.
the page at offset o holds at most total - o transactions. -/
theorem c9_pagination (client : Nat → List String × Nat) (total : Nat)
    (hstable : ∀ o, (client o).2 = total)
    (hprog : ∀ o, o < total → 1 ≤ (client o).1.length) :
    (∃ res, fetchTransactions client (total + 1) = some res ∧
      total ≤ res.length) ∧
    ((∀ o, (client o).1.length ≤ total - o) →
      ∃ res, fetchTransactions client (total + 1) = some res ∧
        res.length = total) := by
  constructor
  · unfold fetchTransactions
    rw [hstable 0]
    exact fetchLoop_terminates client total hstable hprog (total + 1)
      (client 0).1 (by omega)
  · intro hcap
    unfold fetchTransactions
    rw [hstable 0]
    apply fetchLoop_exact client total hstable hprog hcap (total + 1)
      (client 0).1 (by omega)
    have := hcap 0
    omega

/-- A collaborator whose very first page overshoots the reported total:
every request returns two transactions while reporting a total of one. -/
def overshootClient : Nat → List String × Nat :=
  fun _ => (["t1", "t2"], 1)

/-- The precondition C9 places on the collaborator, at overshootClient: the
reported total (one) is stable across calls, and every page requested while
transactions remain is non-empty. -/
def OvershootPre : Prop :=
  (∀ o, (overshootClient o).2 = 1) ∧
    ∀ o, o < 1 → 1 ≤ (overshootClient o).1.length

/-- C9 counterexample: overshootClient satisfies the claim precondition,
yet fetch_transactions returns two transactions, not the reported total of
one: the loop exits as soon as the count reaches or exceeds the total, so
the claim that it returns exactly the reported count is false. -/
theorem c9_counterexample :
    OvershootPre ∧
    fetchTransactions overshootClient 5 = some ["t1", "t2"] ∧
    (["t1", "t2"] : List String).length ≠ 1 := by
  refine ⟨⟨fun o => rfl, fun o _ => by simp [overshootClient]⟩, rfl, by decide⟩

/-- A collaborator that reports a total of one and serves exactly one
transaction on the first page and empty pages afterwards. -/
def onePageClient : Nat → List String × Nat :=
  fun o => (if o < 1 then ["a"] else [], 1)

/-- Witness for the amended C9 at onePageClient: the fetch terminates and
returns exactly the reported total of one transaction. -/
theorem c9_pagination_witness :
    ∃ res, fetchTransactions onePageClient 2 = some res ∧
      res.length = 1 := by
  apply (c9_pagination onePageClient 1 (fun o => rfl) ?_).2 ?_
  · intro o ho
    have h0 : o = 0 := by omega
    subst h0
    decide
  · intro o
    by_cases h : o < 1
    · have h0 : o = 0 := by omega
      subst h0
      decide
    · have h1 : 1 ≤ o := by omega
      simp only [onePageClient, if_neg h]
      simp

end BudgetApp
